import Mathlib

/-!
# Verification of the promql-cli result-decoding and table-projection engine

This file is a shallow embedding of the result-decoding logic of
`Client.Query` (client source) and the table projection `buildTable`,
`sortedLabelNames`, `formatTimestamp` (CLI source) of the yfuruyama/promql-cli
repository, together with proofs of the specified properties.

Modelling conventions:
* JSON numbers are represented exactly as rationals (`ℚ`); the Go code stores
  them in `float64`.  All numeric reasoning is over exact arithmetic.
* Go's `map[string]string` is represented as an association list
  (`List (String × String)`); a real map has unique keys, which appears as a
  `Nodup` hypothesis where the result depends on it.
* Go's dynamically typed `any` values decoded from JSON are the `Json` type
  itself (Go's `float64`/`string`/`bool`/`nil`/`[]any`/`map[string]any`
  decodings are in bijection with the JSON value).
* A Go run-time panic (failing type assertion, out-of-range index) is
  modelled by `Option`: `none` means the corresponding Go code panics.
* `time.UnixMicro(us).Format(time.RFC3339Nano)` is modelled in the UTC zone
  for non-negative `us` (the domain used by every claim); negative instants
  are clamped to the epoch by this model.
-/

namespace PromQL

/-- A parsed JSON value.  Also serves as the model of a decoded Go `any`. -/
inductive Json where
  | null : Json
  | bool (b : Bool) : Json
  | num (q : ℚ) : Json
  | str (s : String) : Json
  | arr (elems : List Json) : Json
  | obj (fields : List (String × Json)) : Json

/-- Go `map[string]string`, as an association list. -/
abbrev Labels := List (String × String)

/-- `VectorTimeSeries` of the client source: `Metric` is the label map and
`Point` is the raw 2-tuple `[timestamp, value]` (still dynamically typed). -/
structure VectorTimeSeries where
  Metric : Labels
  Point : List Json

/-- `MatrixTimeSeries` of the client source: a label map together with a
sequence of raw `[timestamp, value]` points. -/
structure MatrixTimeSeries where
  Metric : Labels
  Points : List (List Json)

/-- The concrete payload stored in `Data.Result` (a Go `any` holding one of
`ResultScalar`, `ResultString`, `ResultVector`, `ResultMatrix`). -/
inductive ResultPayload where
  | scalar (xs : List Json) : ResultPayload
  | strResult (xs : List Json) : ResultPayload
  | vector (series : List VectorTimeSeries) : ResultPayload
  | matrix (series : List MatrixTimeSeries) : ResultPayload

/-- The envelope as produced by the first JSON decode of the response body:
`status`, `error`, `data.resultType` and the raw, not yet typed
`data.result` payload (`none` models a `nil`/empty `json.RawMessage`,
i.e. the `result` key being absent). -/
structure RawEnvelope where
  status : String
  error : String
  resultType : String
  resultRaw : Option Json

/-- `QueryResponse` as returned by a successful `Client.Query`: the envelope
fields plus the typed payload placed in `Data.Result` by the second decode
(`none` would be a `nil` `any`, which the projector treats in its default
branch). -/
structure QueryResponse where
  status : String
  error : String
  resultType : String
  resultRaw : Option Json
  result : Option ResultPayload

/-- The error taxonomy of `Client.Query` after a successful first-phase JSON
decode: a backend-reported error (`errors.New(qr.Error)`), a second-phase
`json.Unmarshal` failure, or the unsupported-result-type error. -/
inductive ClientError where
  | backend (msg : String) : ClientError
  | unmarshal (msg : String) : ClientError
  | unsupportedResultType (resultType : String) : ClientError

/-- `json.Unmarshal` of a raw payload into `map[string]string`:
JSON `null` leaves the zero value (empty map), a JSON object needs every
value to be a string, anything else is a type error. -/
def asLabelMap : Json → Except String Labels
  | .null => .ok []
  | .obj fields =>
      fields.mapM (fun kv =>
        match kv.2 with
        | .str s => .ok (kv.1, s)
        | _ => .error "json: cannot unmarshal value into Go value of type string")
  | _ => .error "json: cannot unmarshal value into Go value of type map[string]string"

/-- `json.Unmarshal` of a raw payload into `[]any`: JSON `null` leaves the
zero value (nil slice), a JSON array yields its elements, anything else is a
type error. -/
def asAnyList : Json → Except String (List Json)
  | .null => .ok []
  | .arr xs => .ok xs
  | _ => .error "json: cannot unmarshal value into Go value of type []interface \x7b\x7d"

/-- `json.Unmarshal` of a raw payload into `[][]any`. -/
def asPointsList : Json → Except String (List (List Json))
  | .null => .ok []
  | .arr xs => xs.mapM asAnyList
  | _ => .error "json: cannot unmarshal value into Go value of type [][]interface \x7b\x7d"

/-- Decoding one vector sample (`{"metric": ..., "value": ...}`) into
`VectorTimeSeries`.  A missing field leaves the Go zero value; JSON `null`
leaves the whole struct at its zero value. -/
def decodeVectorTS : Json → Except String VectorTimeSeries
  | .null => .ok ⟨[], []⟩
  | .obj fields => do
      let m ← match fields.lookup "metric" with
        | none => .ok []
        | some v => asLabelMap v
      let p ← match fields.lookup "value" with
        | none => .ok []
        | some v => asAnyList v
      .ok ⟨m, p⟩
  | _ => .error "json: cannot unmarshal value into Go value of type main.VectorTimeSeries"

/-- Decoding one matrix series (`{"metric": ..., "values": ...}`) into
`MatrixTimeSeries`. -/
def decodeMatrixTS : Json → Except String MatrixTimeSeries
  | .null => .ok ⟨[], []⟩
  | .obj fields => do
      let m ← match fields.lookup "metric" with
        | none => .ok []
        | some v => asLabelMap v
      let p ← match fields.lookup "values" with
        | none => .ok []
        | some v => asPointsList v
      .ok ⟨m, p⟩
  | _ => .error "json: cannot unmarshal value into Go value of type main.MatrixTimeSeries"

/-- `json.Unmarshal` of the raw payload into `ResultScalar`/`ResultString`
(both are `[]any`).  `none` (absent raw payload) is the
"unexpected end of JSON input" failure of unmarshalling empty bytes. -/
def decodeAnyList : Option Json → Except String (List Json)
  | none => .error "unexpected end of JSON input"
  | some j => asAnyList j

/-- `json.Unmarshal` of the raw payload into `ResultVector`. -/
def decodeResultVector : Option Json → Except String (List VectorTimeSeries)
  | none => .error "unexpected end of JSON input"
  | some .null => .ok []
  | some (.arr xs) => xs.mapM decodeVectorTS
  | some _ => .error "json: cannot unmarshal value into Go value of type main.ResultVector"

/-- `json.Unmarshal` of the raw payload into `ResultMatrix`. -/
def decodeResultMatrix : Option Json → Except String (List MatrixTimeSeries)
  | none => .error "unexpected end of JSON input"
  | some .null => .ok []
  | some (.arr xs) => xs.mapM decodeMatrixTS
  | some _ => .error "json: cannot unmarshal value into Go value of type main.ResultMatrix"

/-- The decision logic of `Client.Query` after the first-phase JSON decode
succeeded: reject `status == "error"` with the backend's own message, then
branch on `resultType` and decode the raw payload a second time into exactly
one concrete shape; an unrecognized `resultType` is a hard error. -/
def clientDecode (env : RawEnvelope) : Except ClientError QueryResponse :=
  if env.status = "error" then .error (.backend env.error)
  else
    match env.resultType with
    | "scalar" =>
        match decodeAnyList env.resultRaw with
        | .error e => .error (.unmarshal e)
        | .ok r => .ok ⟨env.status, env.error, env.resultType, env.resultRaw, some (.scalar r)⟩
    | "string" =>
        match decodeAnyList env.resultRaw with
        | .error e => .error (.unmarshal e)
        | .ok r => .ok ⟨env.status, env.error, env.resultType, env.resultRaw, some (.strResult r)⟩
    | "vector" =>
        match decodeResultVector env.resultRaw with
        | .error e => .error (.unmarshal e)
        | .ok r => .ok ⟨env.status, env.error, env.resultType, env.resultRaw, some (.vector r)⟩
    | "matrix" =>
        match decodeResultMatrix env.resultRaw with
        | .error e => .error (.unmarshal e)
        | .ok r => .ok ⟨env.status, env.error, env.resultType, env.resultRaw, some (.matrix r)⟩
    | _ => .error (.unsupportedResultType env.resultType)

/-- Strict lexicographic comparison of character lists: Go compares strings
byte-wise, which on UTF-8 encodings coincides with code-point order. -/
def charsLess : List Char → List Char → Bool
  | [], [] => false
  | [], _ :: _ => true
  | _ :: _, [] => false
  | a :: as, b :: bs =>
      if a < b then true else if b < a then false else charsLess as bs

/-- Go string comparison `a <= b` (what `sort.StringsAreSorted` checks on a
two-element slice): not `b < a`. -/
def strLe (a b : String) : Bool := ! charsLess b.data a.data

/-- The comparator passed to `sort.Slice` inside `sortedLabelNames`:
`__name__` is less than everything, everything is less than `le`, and
otherwise plain lexicographic string order (`sort.StringsAreSorted` on a
two-element slice is exactly `labelI <= labelJ`). -/
def labelLess (a b : String) : Bool :=
  if a = "__name__" then true
  else if b = "__name__" then false
  else if a = "le" then false
  else if b = "le" then true
  else strLe a b

/-- Insertion of one name into a list sorted by `labelLess`. -/
def insertLabel (x : String) : List String → List String
  | [] => [x]
  | y :: ys => if labelLess x y then x :: y :: ys else y :: insertLabel x ys

/-- Insertion sort by `labelLess`.  `sort.Slice` with a comparator that is a
strict total order on the (distinct) map keys produces this unique sorted
arrangement whatever the map iteration order was. -/
def sortLabelList : List String → List String
  | [] => []
  | x :: xs => insertLabel x (sortLabelList xs)

/-- `sortedLabelNames`: collect the label names of the map and sort them
with the two-anchor comparator. -/
def sortedLabelNames (labels : Labels) : List String :=
  sortLabelList (labels.map Prod.fst)

/-- Go map read `labels[name]` (missing keys give the zero value `""`). -/
def mapGet (labels : Labels) (k : String) : String :=
  (labels.lookup k).getD ""

/-- The sorted-position relation: comparator-less or equal. -/
def labelLeE (a b : String) : Prop := labelLess a b = true ∨ a = b

/-- A well-formed raw point: `[number, string, ...]` as emitted by the backend. -/
def WFPoint (p : List Json) : Prop :=
  ∃ t v rest, p = Json.num t :: Json.str v :: rest

/-- All samples (series) of a vector (matrix) payload carry the same
label-name multiset as the first one. -/
def UniformKeys (qr : QueryResponse) : Prop :=
  match qr.result with
  | some (.vector (first :: rest)) =>
      ∀ ts ∈ rest, List.Perm (ts.Metric.map Prod.fst) (first.Metric.map Prod.fst)
  | some (.matrix (first :: rest)) =>
      ∀ ts ∈ rest, List.Perm (ts.Metric.map Prod.fst) (first.Metric.map Prod.fst)
  | _ => True

/-- Every raw point of the payload is well formed. -/
def WFPayload : Option ResultPayload → Prop
  | some (.scalar xs) => WFPoint xs
  | some (.strResult xs) => WFPoint xs
  | some (.vector series) => ∀ ts ∈ series, WFPoint ts.Point
  | some (.matrix series) => ∀ ts ∈ series, ∀ p ∈ ts.Points, WFPoint p
  | none => True

/-! ## The timestamp formatter

`formatTimestamp` is `time.UnixMicro(int64(timestamp * 1_000_000)).Format(time.RFC3339Nano)`.
The conversion `int64(...)` truncates toward zero; the formatting of a
non-negative microsecond instant in UTC is modelled by an explicit proleptic
Gregorian calendar computation. -/

/-- Gregorian leap-year rule. -/
def isLeapYear (y : ℕ) : Bool := (y % 4 == 0 && y % 100 != 0) || y % 400 == 0

/-- Number of days of year `y`. -/
def daysInYear (y : ℕ) : ℕ := if isLeapYear y then 366 else 365

/-- The month lengths of a (leap) year. -/
def monthLengths (leap : Bool) : List ℕ :=
  [31, if leap then 29 else 28, 31, 30, 31, 30, 31, 31, 30, 31, 30, 31]

/-- Walk forward one year at a time: from year `y` and day offset `n`,
return the year containing the day and the day-of-year.  The first argument
is structural fuel; any fuel larger than the number of consumed years gives
the fixpoint. -/
def findYear : ℕ → ℕ → ℕ → ℕ × ℕ
  | 0, y, n => (y, n)
  | fuel + 1, y, n =>
      if n < daysInYear y then (y, n) else findYear fuel (y + 1) (n - daysInYear y)

/-- Walk the month-length list: from day-of-year `n`, return the (1-based)
month and the day offset inside the month. -/
def findMonth : List ℕ → ℕ → ℕ → ℕ × ℕ
  | [], m, n => (m, n)
  | len :: rest, m, n =>
      if n < len then (m, n) else findMonth rest (m + 1) (n - len)

/-- Days since 1970-01-01 to calendar date (year, month, day). -/
def civilFromDays (n : ℕ) : ℕ × ℕ × ℕ :=
  let yd := findYear (n + 1) 1970 n
  let md := findMonth (monthLengths (isLeapYear yd.1)) 1 yd.2
  (yd.1, md.1, md.2 + 1)

/-- The decimal digit character of `n % 10`-like values. -/
def digitChar (n : ℕ) : Char := Char.ofNat (48 + n)

/-- Zero-padded fixed-width decimal digits, most significant first. -/
def toPad : ℕ → ℕ → List Char
  | 0, _ => []
  | k + 1, n => toPad k (n / 10) ++ [digitChar (n % 10)]

/-- Strip trailing zero digits (the `.999999999` trimming of RFC3339Nano). -/
def trimZeros (cs : List Char) : List Char :=
  (cs.reverse.dropWhile (fun c => c = '0')).reverse

/-- The fractional-seconds part of RFC3339Nano for a microsecond remainder:
empty when zero, otherwise a dot followed by the nanosecond digits with
trailing zeros removed. -/
def fracString (micro : ℕ) : List Char :=
  if micro = 0 then [] else '.' :: trimZeros (toPad 9 (micro * 1000))

/-- The character list of the RFC3339Nano rendering of an instant given as
days since the epoch, seconds of day and leftover microseconds. -/
def rfc3339Core (days sod micro : ℕ) : List Char :=
  toPad 4 (civilFromDays days).1 ++ ('-' :: (toPad 2 (civilFromDays days).2.1 ++
  ('-' :: (toPad 2 (civilFromDays days).2.2 ++
  ('T' :: (toPad 2 (sod / 3600) ++ (':' :: (toPad 2 (sod % 3600 / 60) ++
  (':' :: (toPad 2 (sod % 60) ++ (fracString micro ++ ['Z'])))))))))))

/-- `time.UnixMicro(us).Format(time.RFC3339Nano)` in the UTC zone for
`us ≥ 0` (negative instants are clamped to the epoch by this model and are
outside the domain of every claim). -/
def rfc3339NanoUTC (us : ℤ) : String :=
  ⟨rfc3339Core (us.toNat / 1000000 / 86400) (us.toNat / 1000000 % 86400)
    (us.toNat % 1000000)⟩

/-- Go's `int64(timestamp * 1_000_000)` over the exact-number model:
truncation toward zero of the scaled value.  `Int.tdiv` rounds toward zero
and is invariant under un-reduced fractions, so the scaling is performed on
the numerator: `(q.num * 10^6) tdiv q.den` is exactly the toward-zero
truncation of `q * 10^6`. -/
def goMicroOfSeconds (q : ℚ) : ℤ := Int.tdiv (q.num * 1000000) q.den

/-- `formatTimestamp`: scale fractional Unix seconds to microseconds,
truncate to an integer, format the microsecond instant. -/
def formatTimestamp (timestamp : ℚ) : String :=
  rfc3339NanoUTC (goMicroOfSeconds timestamp)

/-! ## An RFC3339 parser (for the round-trip property of the formatter) -/

/-- Decimal value of a digit character. -/
def charVal (c : Char) : ℕ := c.toNat - 48

/-- Decimal-digit test. -/
def isDigitCh (c : Char) : Bool := 48 ≤ c.toNat && c.toNat ≤ 57

/-- Value of a most-significant-first digit list. -/
def fromDigits (cs : List Char) : ℕ := cs.foldl (fun a c => a * 10 + charVal c) 0

/-- Read exactly `k` digits. -/
def parseFixed (k : ℕ) (cs : List Char) : Option (ℕ × List Char) :=
  if (cs.take k).length = k ∧ (cs.take k).all isDigitCh then
    some (fromDigits (cs.take k), cs.drop k)
  else none

/-- Expect one literal character. -/
def expectCh (c : Char) : List Char → Option (List Char)
  | [] => none
  | x :: xs => if x = c then some xs else none

/-- Total days of `k` consecutive years starting with year `y`. -/
def spanDays (y : ℕ) : ℕ → ℕ
  | 0 => 0
  | k + 1 => daysInYear y + spanDays (y + 1) k

/-- Calendar date (year ≥ 1970) back to days since 1970-01-01. -/
def daysFromCivil (y m d : ℕ) : ℕ :=
  spanDays 1970 (y - 1970) + ((monthLengths (isLeapYear y)).take (m - 1)).sum + (d - 1)

/-- Parse a fraction-of-a-second digit run followed by `Z` into nanoseconds. -/
def parseFrac (cs : List Char) : Option ℕ :=
  if (cs.takeWhile isDigitCh).length = 0 ∨ 9 < (cs.takeWhile isDigitCh).length then
    none
  else
    match cs.drop (cs.takeWhile isDigitCh).length with
    | ['Z'] => some (fromDigits (cs.takeWhile isDigitCh)
        * 10 ^ (9 - (cs.takeWhile isDigitCh).length))
    | _ => none

/-- Parse an RFC3339(Nano) UTC character sequence into Unix microseconds. -/
def parseChars (cs : List Char) : Option ℤ := do
  let yr ← parseFixed 4 cs
  let r2 ← expectCh '-' yr.2
  let mo ← parseFixed 2 r2
  let r4 ← expectCh '-' mo.2
  let dy ← parseFixed 2 r4
  let r6 ← expectCh 'T' dy.2
  let hh ← parseFixed 2 r6
  let r8 ← expectCh ':' hh.2
  let mi ← parseFixed 2 r8
  let r10 ← expectCh ':' mi.2
  let sc ← parseFixed 2 r10
  let ns ← match sc.2 with
    | ['Z'] => some 0
    | '.' :: fs => parseFrac fs
    | _ => none
  let secs := daysFromCivil yr.1 mo.1 dy.1 * 86400 + hh.1 * 3600 + mi.1 * 60 + sc.1
  some ((secs * 1000000 + ns / 1000 : ℕ) : ℤ)

/-- Parse an RFC3339(Nano) UTC timestamp back into Unix microseconds. -/
def parseRFC3339 (s : String) : Option ℤ := parseChars s.data

/-- The calendar year in which a non-negative microsecond instant falls. -/
def yearOf (us : ℤ) : ℕ := (civilFromDays (us.toNat / 1000000 / 86400)).1

/-! ## The table projector -/

/-- One table row. -/
structure Row where
  Columns : List String
  deriving DecidableEq

/-- The projected table. -/
structure Table where
  Header : List String
  Rows : List Row
  deriving DecidableEq

/-- Go type assertion `.(float64)` on a decoded `any` (panic = `none`). -/
def goFloat : Json → Option ℚ
  | .num q => some q
  | _ => none

/-- Go type assertion `.(string)` on a decoded `any` (panic = `none`). -/
def goStr : Json → Option String
  | .str s => some s
  | _ => none

/-- The scalar/string row: `result[0].(float64)`, `result[1].(string)`,
then `[formatTimestamp(timestamp), value]`.  Indexing an out-of-range
element or a failing assertion panics (`none`). -/
def scalarRow (xs : List Json) : Option Row := do
  let t ← xs.get? 0 >>= goFloat
  let v ← xs.get? 1 >>= goStr
  some ⟨[formatTimestamp t, v]⟩

/-- One vector sample row: timestamp, the sample's own sorted label values,
the value. -/
def sampleRow (ts : VectorTimeSeries) : Option Row := do
  let t ← ts.Point.get? 0 >>= goFloat
  let v ← ts.Point.get? 1 >>= goStr
  some ⟨formatTimestamp t :: ((sortedLabelNames ts.Metric).map (mapGet ts.Metric) ++ [v])⟩

/-- One matrix point row: timestamp, the series' own sorted label values,
the value. -/
def pointRow (m : Labels) (p : List Json) : Option Row := do
  let t ← p.get? 0 >>= goFloat
  let v ← p.get? 1 >>= goStr
  some ⟨formatTimestamp t :: ((sortedLabelNames m).map (mapGet m) ++ [v])⟩

/-- `buildTable`: project a decoded `QueryResponse` into a `Table`.
`none` models a Go panic (failing type assertion / out-of-range index on a
malformed payload); every non-panicking path returns a table. -/
def buildTable (qr : QueryResponse) : Option Table :=
  if qr.resultRaw.isNone then some ⟨[], []⟩
  else
    match qr.result with
    | some (.scalar xs) => do
        let r ← scalarRow xs
        some ⟨["timestamp", "value"], [r]⟩
    | some (.strResult xs) => do
        let r ← scalarRow xs
        some ⟨["timestamp", "value"], [r]⟩
    | some (.vector result) =>
        match result with
        | [] => some ⟨[], []⟩
        | first :: _ => do
            let rows ← result.mapM sampleRow
            some ⟨"timestamp" :: (sortedLabelNames first.Metric ++ ["value"]), rows⟩
    | some (.matrix result) =>
        match result with
        | [] => some ⟨[], []⟩
        | first :: _ => do
            let rowss ← result.mapM (fun ts => ts.Points.mapM (pointRow ts.Metric))
            some ⟨"timestamp" :: (sortedLabelNames first.Metric ++ ["value"]), rowss.flatten⟩
    | none => some ⟨[], []⟩

/-- Total extraction of the number carried by a well-formed point element. -/
def jNum : Json → ℚ
  | .num q => q
  | _ => 0

/-- Total extraction of the string carried by a well-formed point element. -/
def jStr : Json → String
  | .str s => s
  | _ => ""

/-- The row a well-formed point `p` of a series with labels `m` projects to:
timestamp, the series' label values in sorted-name order, the value. -/
def goRow (m : Labels) (p : List Json) : Row :=
  ⟨formatTimestamp (jNum (p.getD 0 .null)) ::
    ((sortedLabelNames m).map (mapGet m) ++ [jStr (p.getD 1 .null)])⟩

/-! ## Concrete fixtures used by witnesses and counterexamples -/

/-- Raw vector payload whose second sample carries an extra label `b`. -/
def heteroRaw : Json :=
  .arr [
    .obj [("metric", .obj [("a", .str "1")]), ("value", .arr [.num 1, .str "2"])],
    .obj [("metric", .obj [("a", .str "1"), ("b", .str "2")]),
      ("value", .arr [.num 1, .str "3"])]]

def heteroEnv : RawEnvelope := ⟨"success", "", "vector", some heteroRaw⟩

/-- What `Client.Query` returns for `heteroEnv`. -/
def heteroResp : QueryResponse :=
  ⟨"success", "", "vector", some heteroRaw,
    some (.vector [⟨[("a", "1")], [.num 1, .str "2"]⟩,
      ⟨[("a", "1"), ("b", "2")], [.num 1, .str "3"]⟩])⟩

/-- The table the projector produces for `heteroResp`. -/
def heteroTable : Table :=
  ⟨["timestamp", "a", "value"],
    [⟨["1970-01-01T00:00:01Z", "1", "2"]⟩,
     ⟨["1970-01-01T00:00:01Z", "1", "2", "3"]⟩]⟩

/-- Raw vector payload with two samples over the same label keys (listed in
different orders). -/
def homoRaw : Json :=
  .arr [
    .obj [("metric", .obj [("job", .str "api"), ("instance", .str "i1")]),
      ("value", .arr [.num 1, .str "5"])],
    .obj [("metric", .obj [("instance", .str "i2"), ("job", .str "db")]),
      ("value", .arr [.num 2, .str "6"])]]

def homoEnv : RawEnvelope := ⟨"success", "", "vector", some homoRaw⟩

def homoResp : QueryResponse :=
  ⟨"success", "", "vector", some homoRaw,
    some (.vector [⟨[("job", "api"), ("instance", "i1")], [.num 1, .str "5"]⟩,
      ⟨[("instance", "i2"), ("job", "db")], [.num 2, .str "6"]⟩])⟩

/-- The table the projector produces for `homoResp`. -/
def homoTable : Table :=
  ⟨["timestamp", "instance", "job", "value"],
    [⟨["1970-01-01T00:00:01Z", "i1", "api", "5"]⟩,
     ⟨["1970-01-01T00:00:02Z", "i2", "db", "6"]⟩]⟩

/-- Scalar response whose raw payload is the empty JSON array `[]`: the
decoder accepts it, the projector then indexes `result[0]`. -/
def emptyScalarEnv : RawEnvelope := ⟨"success", "", "scalar", some (.arr [])⟩

def emptyScalarResp : QueryResponse :=
  ⟨"success", "", "scalar", some (.arr []), some (.scalar [])⟩

/-- Vector response with zero samples. -/
def emptyVecEnv : RawEnvelope := ⟨"success", "", "vector", some (.arr [])⟩

def emptyVecResp : QueryResponse :=
  ⟨"success", "", "vector", some (.arr []), some (.vector [])⟩

/-- Raw matrix payload: two series with two points and one point. -/
def matrixRaw : Json :=
  .arr [
    .obj [("metric", .obj [("job", .str "api")]),
      ("values", .arr [.arr [.num 1, .str "10"], .arr [.num 2, .str "11"]])],
    .obj [("metric", .obj [("job", .str "db")]),
      ("values", .arr [.arr [.num 3, .str "12"]])]]

def matrixEnv : RawEnvelope := ⟨"success", "", "matrix", some matrixRaw⟩

def matrixResp : QueryResponse :=
  ⟨"success", "", "matrix", some matrixRaw,
    some (.matrix [⟨[("job", "api")], [[.num 1, .str "10"], [.num 2, .str "11"]]⟩,
      ⟨[("job", "db")], [[.num 3, .str "12"]]⟩])⟩

/-- Scalar response carrying the fractional timestamp `1700000000.5`. -/
def scalarRawJson : Json := .arr [.num (mkRat 3400000001 2), .str "3.14"]

def scalarEnv : RawEnvelope := ⟨"success", "", "scalar", some scalarRawJson⟩

def scalarResp : QueryResponse :=
  ⟨"success", "", "scalar", some scalarRawJson,
    some (.scalar [.num (mkRat 3400000001 2), .str "3.14"])⟩

/-! ## Properties of the label comparator and of the label sort -/

theorem charsLess_iff_lex :
    ∀ (as bs : List Char), charsLess as bs = true ↔ List.Lex (· < ·) as bs
  | [], [] => by
      constructor
      · intro h; simp [charsLess] at h
      · intro h; exact absurd h (List.Lex.not_nil_right _ _)
  | [], b :: bs => by
      constructor
      · intro _; exact List.Lex.nil
      · intro _; rfl
  | a :: as, [] => by
      constructor
      · intro h; simp [charsLess] at h
      · intro h; exact absurd h (List.Lex.not_nil_right _ _)
  | a :: as, b :: bs => by
      constructor
      · intro h
        by_cases hab : a < b
        · exact List.Lex.rel hab
        · by_cases hba : b < a
          · simp [charsLess, hab, hba] at h
          · have heq : a = b := le_antisymm (not_lt.mp hba) (not_lt.mp hab)
            subst heq
            exact List.Lex.cons ((charsLess_iff_lex as bs).mp
              (by simpa [charsLess, hab, hba] using h))
      · intro h
        cases h with
        | rel hab => simp [charsLess, hab]
        | cons htl =>
            simp only [charsLess, if_neg (lt_irrefl a)]
            exact (charsLess_iff_lex as bs).mpr htl

theorem charsLess_iff_lt_str (a b : String) : charsLess a.data b.data = true ↔ a < b := by
  rw [String.lt_iff_toList_lt]
  exact charsLess_iff_lex a.data b.data

theorem strLe_iff_le (a b : String) : strLe a b = true ↔ a ≤ b := by
  have h1 : strLe a b = true ↔ ¬(charsLess b.data a.data = true) := by
    rw [strLe]; cases charsLess b.data a.data <;> simp
  rw [h1, charsLess_iff_lt_str, ← not_lt]

theorem strLe_false {x y : String} (h : strLe x y = false) : strLe y x = true := by
  have h1 : charsLess y.data x.data = true := by
    rw [strLe] at h; cases hc : charsLess y.data x.data
    · rw [hc] at h; simp at h
    · rfl
  rw [charsLess_iff_lt_str] at h1
  exact (strLe_iff_le y x).mpr (le_of_lt h1)

/-- On failure of the comparator the arguments are either swapped-less or
equal (the comparator totally orders distinct strings). -/
theorem labelLess_false {x y : String} (h : labelLess x y = false) :
    labelLess y x = true ∨ y = x := by
  unfold labelLess at h ⊢
  by_cases hx : x = "__name__"
  · simp [hx] at h
  · by_cases hy : y = "__name__"
    · simp [hy]
    · by_cases hxle : x = "le"
      · by_cases hyle : y = "le"
        · right; rw [hxle, hyle]
        · left; simp [hx, hy, hxle, hyle]
      · by_cases hyle : y = "le"
        · simp [hx, hy, hxle, hyle] at h
        · simp only [if_neg hx, if_neg hy, if_neg hxle, if_neg hyle] at h ⊢
          exact Or.inl (strLe_false h)

/-- The comparator is antisymmetric. -/
theorem labelLess_antisymm {a b : String} (hab : labelLess a b = true)
    (hba : labelLess b a = true) : a = b := by
  unfold labelLess at hab hba
  by_cases ha : a = "__name__"
  · by_cases hb : b = "__name__"
    · rw [ha, hb]
    · simp [ha, hb] at hba
  · by_cases hb : b = "__name__"
    · simp [ha, hb] at hab
    · by_cases hale : a = "le"
      · simp [ha, hb, hale] at hab
      · by_cases hble : b = "le"
        · simp [ha, hb, hble] at hba
        · simp only [if_neg ha, if_neg hb, if_neg hale, if_neg hble] at hab hba
          exact le_antisymm ((strLe_iff_le a b).mp hab) ((strLe_iff_le b a).mp hba)

/-- The comparator is transitive. -/
theorem labelLess_trans {a b c : String} (hab : labelLess a b = true)
    (hbc : labelLess b c = true) : labelLess a c = true := by
  unfold labelLess at hab hbc ⊢
  by_cases ha : a = "__name__"
  · simp [ha]
  · by_cases hb : b = "__name__"
    · simp [ha, hb] at hab
    · by_cases hc : c = "__name__"
      · simp [hb, hc] at hbc
      · by_cases hale : a = "le"
        · simp [ha, hb, hale] at hab
        · by_cases hble : b = "le"
          · simp [hb, hc, hble] at hbc
          · by_cases hcle : c = "le"
            · simp [ha, hc, hale, hcle]
            · simp only [if_neg ha, if_neg hb, if_neg hc, if_neg hale, if_neg hble,
                if_neg hcle] at hab hbc ⊢
              exact (strLe_iff_le a c).mpr
                (le_trans ((strLe_iff_le a b).mp hab) ((strLe_iff_le b c).mp hbc))

theorem labelLeE_trans {a b c : String} (hab : labelLeE a b) (hbc : labelLeE b c) :
    labelLeE a c := by
  rcases hab with hab | rfl
  · rcases hbc with hbc | rfl
    · exact Or.inl (labelLess_trans hab hbc)
    · exact Or.inl hab
  · exact hbc

theorem insertLabel_cons_pos {x y : String} {ys : List String}
    (h : labelLess x y = true) : insertLabel x (y :: ys) = x :: y :: ys := by
  have e : insertLabel x (y :: ys)
      = if labelLess x y = true then x :: y :: ys else y :: insertLabel x ys := rfl
  rw [e, h, if_pos rfl]

theorem insertLabel_cons_neg {x y : String} {ys : List String}
    (h : labelLess x y = false) : insertLabel x (y :: ys) = y :: insertLabel x ys := by
  have e : insertLabel x (y :: ys)
      = if labelLess x y = true then x :: y :: ys else y :: insertLabel x ys := rfl
  rw [e, h, if_neg (by decide)]

theorem insertLabel_perm (x : String) (l : List String) :
    List.Perm (insertLabel x l) (x :: l) := by
  induction l with
  | nil => rfl
  | cons y ys ih =>
      cases hxy : labelLess x y with
      | true => rw [insertLabel_cons_pos hxy]
      | false =>
          rw [insertLabel_cons_neg hxy]
          exact (ih.cons y).trans (List.Perm.swap x y ys)

theorem sortLabelList_perm (l : List String) : List.Perm (sortLabelList l) l := by
  induction l with
  | nil => rfl
  | cons x xs ih => exact (insertLabel_perm x _).trans (ih.cons x)

theorem mem_insertLabel {x z : String} {l : List String}
    (h : z ∈ insertLabel x l) : z = x ∨ z ∈ l :=
  List.mem_cons.mp ((insertLabel_perm x l).mem_iff.mp h)

theorem pairwise_insertLabel {x : String} {l : List String}
    (hl : l.Pairwise labelLeE) : (insertLabel x l).Pairwise labelLeE := by
  induction l with
  | nil => simp [insertLabel]
  | cons y ys ih =>
      rw [List.pairwise_cons] at hl
      obtain ⟨hy, hys⟩ := hl
      cases hxy : labelLess x y with
      | true =>
          rw [insertLabel_cons_pos hxy]
          refine List.pairwise_cons.mpr ⟨?_, List.pairwise_cons.mpr ⟨hy, hys⟩⟩
          intro z hz
          rcases List.mem_cons.mp hz with rfl | hz
          · exact Or.inl hxy
          · exact labelLeE_trans (Or.inl hxy) (hy z hz)
      | false =>
          rw [insertLabel_cons_neg hxy]
          refine List.pairwise_cons.mpr ⟨?_, ih hys⟩
          intro z hz
          rcases mem_insertLabel hz with rfl | hz
          · rcases labelLess_false hxy with h2 | h2
            · exact Or.inl h2
            · exact Or.inr h2
          · exact hy z hz

theorem pairwise_sortLabelList (l : List String) :
    (sortLabelList l).Pairwise labelLeE := by
  induction l with
  | nil => exact List.Pairwise.nil
  | cons x xs ih => exact pairwise_insertLabel ih

/-- Two label maps whose name multisets agree sort identically. -/
theorem labelLeE_antisymm {a b : String} (hab : labelLeE a b) (hba : labelLeE b a) :
    a = b := by
  rcases hab with hab | rfl
  · rcases hba with hba | rfl
    · exact labelLess_antisymm hab hba
    · rfl
  · rfl

theorem sortedLabelNames_eq_of_perm {m₁ m₂ : Labels}
    (h : List.Perm (m₁.map Prod.fst) (m₂.map Prod.fst)) :
    sortedLabelNames m₁ = sortedLabelNames m₂ := by
  haveI : IsAntisymm String labelLeE := ⟨fun _ _ => labelLeE_antisymm⟩
  exact List.eq_of_perm_of_sorted
    (((sortLabelList_perm _).trans h).trans (sortLabelList_perm _).symm)
    (pairwise_sortLabelList _) (pairwise_sortLabelList _)

/-! ## Generic inversion lemmas for `Option`-valued `mapM` -/

theorem mapM_option_eq_some {α β : Type} {f : α → Option β} :
    ∀ {l : List α} {ys : List β}, l.mapM f = some ys →
      List.Forall₂ (fun a b => f a = some b) l ys := by
  intro l
  induction l with
  | nil =>
      intro ys h
      simp only [List.mapM_nil, Option.pure_def, Option.some.injEq] at h
      cases h
      exact List.Forall₂.nil
  | cons a l ih =>
      intro ys h
      rw [List.mapM_cons] at h
      simp only [Option.pure_def, Option.bind_eq_bind, Option.bind_eq_some,
        Option.some.injEq] at h
      obtain ⟨b, hb, bs, hbs, rfl⟩ := h
      exact List.Forall₂.cons hb (ih hbs)

theorem mapM_option_of_forall₂ {α β : Type} {f : α → Option β} :
    ∀ {l : List α} {ys : List β},
      List.Forall₂ (fun a b => f a = some b) l ys → l.mapM f = some ys := by
  intro l ys h
  induction h with
  | nil => rfl
  | cons hb _ ih =>
      rw [List.mapM_cons]
      simp only [Option.pure_def, Option.bind_eq_bind, Option.bind_eq_some]
      exact ⟨_, hb, _, ih, rfl⟩

/-! ## Unfolding lemmas for `buildTable` -/

theorem buildTable_rawEmpty {qr : QueryResponse} (h : qr.resultRaw = none) :
    buildTable qr = some ⟨[], []⟩ := by
  unfold buildTable
  rw [h]
  rfl

theorem buildTable_scalar {qr : QueryResponse} {xs : List Json}
    (hraw : qr.resultRaw.isNone = false) (hres : qr.result = some (.scalar xs)) :
    buildTable qr = (scalarRow xs).bind
      (fun r => some ⟨["timestamp", "value"], [r]⟩) := by
  unfold buildTable
  rw [hraw, hres]
  rfl

theorem buildTable_strResult {qr : QueryResponse} {xs : List Json}
    (hraw : qr.resultRaw.isNone = false) (hres : qr.result = some (.strResult xs)) :
    buildTable qr = (scalarRow xs).bind
      (fun r => some ⟨["timestamp", "value"], [r]⟩) := by
  unfold buildTable
  rw [hraw, hres]
  rfl

theorem buildTable_vector_nil {qr : QueryResponse}
    (hres : qr.result = some (.vector [])) :
    buildTable qr = some ⟨[], []⟩ := by
  unfold buildTable
  rw [hres]
  cases h : qr.resultRaw.isNone <;> rfl

theorem buildTable_vector_cons {qr : QueryResponse} {first : VectorTimeSeries}
    {rest : List VectorTimeSeries} (hraw : qr.resultRaw.isNone = false)
    (hres : qr.result = some (.vector (first :: rest))) :
    buildTable qr = ((first :: rest).mapM sampleRow).bind
      (fun rows =>
        some ⟨"timestamp" :: (sortedLabelNames first.Metric ++ ["value"]), rows⟩) := by
  unfold buildTable
  rw [hraw, hres]
  rfl

theorem buildTable_matrix_nil {qr : QueryResponse}
    (hres : qr.result = some (.matrix [])) :
    buildTable qr = some ⟨[], []⟩ := by
  unfold buildTable
  rw [hres]
  cases h : qr.resultRaw.isNone <;> rfl

theorem buildTable_matrix_cons {qr : QueryResponse} {first : MatrixTimeSeries}
    {rest : List MatrixTimeSeries} (hraw : qr.resultRaw.isNone = false)
    (hres : qr.result = some (.matrix (first :: rest))) :
    buildTable qr = ((first :: rest).mapM
        (fun ts : MatrixTimeSeries => ts.Points.mapM (pointRow ts.Metric))).bind
      (fun rowss =>
        some ⟨"timestamp" :: (sortedLabelNames first.Metric ++ ["value"]),
          rowss.flatten⟩) := by
  unfold buildTable
  rw [hraw, hres]
  rfl

/-- Inversion of a successful `sampleRow`. -/
theorem sampleRow_some {ts : VectorTimeSeries} {r : Row} (h : sampleRow ts = some r) :
    ∃ t v, ts.Point.get? 0 >>= goFloat = some t ∧ ts.Point.get? 1 >>= goStr = some v ∧
      r = ⟨formatTimestamp t :: ((sortedLabelNames ts.Metric).map (mapGet ts.Metric) ++ [v])⟩ := by
  unfold sampleRow at h
  simp only [Option.pure_def, Option.bind_eq_bind, Option.bind_eq_some,
    Option.some.injEq] at h
  obtain ⟨t, ⟨j0, h0, hf0⟩, v, ⟨j1, h1, hf1⟩, rfl⟩ := h
  exact ⟨t, v, by rw [h0]; exact hf0, by rw [h1]; exact hf1, rfl⟩

/-- Inversion of a successful `pointRow`. -/
theorem pointRow_some {m : Labels} {p : List Json} {r : Row} (h : pointRow m p = some r) :
    ∃ t v, p.get? 0 >>= goFloat = some t ∧ p.get? 1 >>= goStr = some v ∧
      r = ⟨formatTimestamp t :: ((sortedLabelNames m).map (mapGet m) ++ [v])⟩ := by
  unfold pointRow at h
  simp only [Option.pure_def, Option.bind_eq_bind, Option.bind_eq_some,
    Option.some.injEq] at h
  obtain ⟨t, ⟨j0, h0, hf0⟩, v, ⟨j1, h1, hf1⟩, rfl⟩ := h
  exact ⟨t, v, by rw [h0]; exact hf0, by rw [h1]; exact hf1, rfl⟩

theorem sampleRow_of_wf {ts : VectorTimeSeries} (h : WFPoint ts.Point) :
    ∃ t v, sampleRow ts =
      some ⟨formatTimestamp t :: ((sortedLabelNames ts.Metric).map (mapGet ts.Metric) ++ [v])⟩ := by
  obtain ⟨t, v, rest, hp⟩ := h
  refine ⟨t, v, ?_⟩
  unfold sampleRow
  rw [hp]
  rfl

theorem pointRow_of_wf {m : Labels} {p : List Json} (h : WFPoint p) :
    ∃ t v, pointRow m p =
      some ⟨formatTimestamp t :: ((sortedLabelNames m).map (mapGet m) ++ [v])⟩ := by
  obtain ⟨t, v, rest, hp⟩ := h
  refine ⟨t, v, ?_⟩
  unfold pointRow
  rw [hp]
  rfl

/-- The position of any pair produced by the sort comparator satisfies the
specified two-anchor lexicographic order. -/
theorem labelLeE_specOrder {a b : String} (h : labelLeE a b) :
    a = "__name__" ∨ b = "le" ∨ (a ≠ "le" ∧ b ≠ "__name__" ∧ a ≤ b) := by
  rcases h with h | rfl
  · unfold labelLess at h
    by_cases ha : a = "__name__"
    · exact Or.inl ha
    · by_cases hb : b = "__name__"
      · simp [ha, hb] at h
      · by_cases hale : a = "le"
        · simp [ha, hb, hale] at h
        · by_cases hble : b = "le"
          · exact Or.inr (Or.inl hble)
          · simp only [if_neg ha, if_neg hb, if_neg hale, if_neg hble] at h
            exact Or.inr (Or.inr ⟨hale, hb, (strLe_iff_le a b).mp h⟩)
  · by_cases ha : a = "__name__"
    · exact Or.inl ha
    · by_cases hale : a = "le"
      · exact Or.inr (Or.inl hale)
      · exact Or.inr (Or.inr ⟨hale, ha, le_refl a⟩)

/-- C2: `sortedLabelNames` sorts label names lexicographically with two
overrides — `__name__` always leftmost, `le` always rightmost, everything
else in lexicographic string order between them; on the label set
`{__name__, job, le, instance}` the result is exactly
`[__name__, instance, job, le]`. -/
theorem sortedLabelNames_two_anchor_order :
    (∀ labels : Labels, (sortedLabelNames labels).Pairwise
      (fun a b => a = "__name__" ∨ b = "le" ∨ (a ≠ "le" ∧ b ≠ "__name__" ∧ a ≤ b)))
    ∧ ∀ v1 v2 v3 v4 : String,
        sortedLabelNames [("__name__", v1), ("job", v2), ("le", v3), ("instance", v4)]
          = ["__name__", "instance", "job", "le"] := by
  constructor
  · intro labels
    exact (pairwise_sortLabelList _).imp (fun h => labelLeE_specOrder h)
  · intro v1 v2 v3 v4
    rfl

/-- C10: `sortedLabelNames` is a permutation of the label-name list — no
name is dropped, duplicated or invented; consequently the header of a
non-empty vector or matrix projection is `timestamp`, then the first
sample's (or series') sorted label names (a permutation of its label-name
set), then `value`. -/
theorem sortedLabelNames_permutation_header :
    (∀ labels : Labels, List.Perm (sortedLabelNames labels) (labels.map Prod.fst))
    ∧ (∀ (qr : QueryResponse) (t : Table) (first : VectorTimeSeries)
        (rest : List VectorTimeSeries), qr.result = some (.vector (first :: rest)) →
        qr.resultRaw.isNone = false → buildTable qr = some t →
        t.Header = "timestamp" :: (sortedLabelNames first.Metric ++ ["value"]))
    ∧ (∀ (qr : QueryResponse) (t : Table) (first : MatrixTimeSeries)
        (rest : List MatrixTimeSeries), qr.result = some (.matrix (first :: rest)) →
        qr.resultRaw.isNone = false → buildTable qr = some t →
        t.Header = "timestamp" :: (sortedLabelNames first.Metric ++ ["value"])) := by
  refine ⟨fun labels => (sortLabelList_perm _).trans (List.Perm.refl _), ?_, ?_⟩
  · intro qr t first rest hres hraw hbt
    rw [buildTable_vector_cons hraw hres] at hbt
    rw [Option.bind_eq_some] at hbt
    obtain ⟨rows, _, ht⟩ := hbt
    cases ht
    rfl
  · intro qr t first rest hres hraw hbt
    rw [buildTable_matrix_cons hraw hres] at hbt
    rw [Option.bind_eq_some] at hbt
    obtain ⟨rows, _, ht⟩ := hbt
    cases ht
    rfl

/-- Witness for C10 at the two-sample vector fixture and the two-series
matrix fixture. -/
theorem sortedLabelNames_permutation_header_witness :
    List.Perm (sortedLabelNames [("job", "api"), ("instance", "i1")])
      ["job", "instance"]
    ∧ (⟨["timestamp", "instance", "job", "value"],
        [⟨["1970-01-01T00:00:01Z", "i1", "api", "5"]⟩,
         ⟨["1970-01-01T00:00:02Z", "i2", "db", "6"]⟩]⟩ : Table).Header
      = "timestamp" :: (sortedLabelNames [("job", "api"), ("instance", "i1")] ++ ["value"])
    ∧ (⟨["timestamp", "job", "value"],
        [⟨["1970-01-01T00:00:01Z", "api", "10"]⟩,
         ⟨["1970-01-01T00:00:02Z", "api", "11"]⟩,
         ⟨["1970-01-01T00:00:03Z", "db", "12"]⟩]⟩ : Table).Header
      = "timestamp" :: (sortedLabelNames [("job", "api")] ++ ["value"]) :=
  ⟨sortedLabelNames_permutation_header.1 [("job", "api"), ("instance", "i1")],
   sortedLabelNames_permutation_header.2.1 homoResp _ _ _ rfl rfl rfl,
   sortedLabelNames_permutation_header.2.2 matrixResp _ _ _ rfl rfl rfl⟩

/-- C9: a vector response with zero samples projects to the table with empty
header and zero rows (displayed as "Empty result"), not to an error. -/
theorem buildTable_empty_vector (qr : QueryResponse)
    (h : qr.result = some (.vector [])) :
    buildTable qr = some ⟨[], []⟩ :=
  buildTable_vector_nil h

/-- Witness for C9 at the decoded zero-sample vector fixture. -/
theorem buildTable_empty_vector_witness :
    clientDecode emptyVecEnv = Except.ok emptyVecResp
    ∧ buildTable emptyVecResp = some ⟨[], []⟩ :=
  ⟨rfl, buildTable_empty_vector emptyVecResp rfl⟩

/-- Amended C5: a response with `status = "error"` makes decoding fail with
an error carrying exactly the backend's own message (which is empty exactly
when the backend sent an empty message), and no `QueryResponse` — hence no
table and no rows — is produced. -/
theorem clientDecode_backend_error (env : RawEnvelope) (h : env.status = "error") :
    clientDecode env = .error (.backend env.error)
    ∧ ∀ resp, clientDecode env ≠ Except.ok resp := by
  have he : clientDecode env = .error (.backend env.error) := by
    unfold clientDecode
    rw [if_pos h]
  refine ⟨he, fun resp hok => ?_⟩
  rw [he] at hok
  exact Except.noConfusion hok

/-- Witness for the amended C5: `status=error` with message "bad query"
yields exactly the backend error "bad query" and no table. -/
theorem clientDecode_backend_error_witness :
    clientDecode ⟨"error", "bad query", "", none⟩
      = .error (.backend "bad query")
    ∧ ∀ resp, clientDecode ⟨"error", "bad query", "", none⟩ ≠ Except.ok resp :=
  clientDecode_backend_error ⟨"error", "bad query", "", none⟩ rfl

/-- Counterexample to C5 as stated: the backend controls the message, so a
`status = "error"` body with an empty `error` field decodes to an error
whose message is empty — the "errorMessage is non-empty" invariant is not
enforced by the code. -/
theorem clientDecode_error_empty_message :
    clientDecode ⟨"error", "", "vector", none⟩ = .error (.backend "") := rfl

/-! ## Further helper lemmas for the projector -/

theorem buildTable_result_none {qr : QueryResponse}
    (hraw : qr.resultRaw.isNone = false) (h : qr.result = none) :
    buildTable qr = some ⟨[], []⟩ := by
  unfold buildTable
  rw [hraw, h]
  rfl

/-- Inversion of a successful `scalarRow`. -/
theorem scalarRow_some {xs : List Json} {r : Row} (h : scalarRow xs = some r) :
    ∃ t v, xs.get? 0 >>= goFloat = some t ∧ xs.get? 1 >>= goStr = some v ∧
      r = ⟨[formatTimestamp t, v]⟩ := by
  unfold scalarRow at h
  simp only [Option.pure_def, Option.bind_eq_bind, Option.bind_eq_some,
    Option.some.injEq] at h
  obtain ⟨t, ⟨j0, h0, hf0⟩, v, ⟨j1, h1, hf1⟩, rfl⟩ := h
  exact ⟨t, v, by rw [h0]; exact hf0, by rw [h1]; exact hf1, rfl⟩

theorem forall₂_mem_right {α β : Type} {R : α → β → Prop} :
    ∀ {l : List α} {ys : List β} {b : β},
      List.Forall₂ R l ys → b ∈ ys → ∃ a, a ∈ l ∧ R a b := by
  intro l ys b h hb
  induction h with
  | nil => cases hb
  | cons hr _ ih =>
      rcases List.mem_cons.mp hb with rfl | hb
      · exact ⟨_, List.mem_cons_self _ _, hr⟩
      · obtain ⟨a, hal, har⟩ := ih hb
        exact ⟨a, List.mem_cons_of_mem _ hal, har⟩

theorem sortedLabelNames_length (m : Labels) :
    (sortedLabelNames m).length = m.length := by
  have h := (sortLabelList_perm (m.map Prod.fst)).length_eq
  simpa [sortedLabelNames] using h

/-- Width of a successful vector sample row. -/
theorem sampleRow_length {ts : VectorTimeSeries} {r : Row} (h : sampleRow ts = some r) :
    r.Columns.length = (sortedLabelNames ts.Metric).length + 2 := by
  obtain ⟨t, v, -, -, rfl⟩ := sampleRow_some h
  simp

/-- Width of a successful matrix point row. -/
theorem pointRow_length {m : Labels} {p : List Json} {r : Row} (h : pointRow m p = some r) :
    r.Columns.length = (sortedLabelNames m).length + 2 := by
  obtain ⟨t, v, -, -, rfl⟩ := pointRow_some h
  simp

/-- C6: for a response that is not a backend error, a `resultType` outside
`{scalar, string, vector, matrix}` (for example `"histogram"`) makes decoding
fail with the unsupported-result-type error — never a silent ignore, a crash
or an empty table; and a recognized `resultType` decodes into exactly the one
matching concrete payload shape. -/
theorem clientDecode_unsupported_result_type (env : RawEnvelope)
    (hs : env.status ≠ "error") :
    (env.resultType ∉ (["scalar", "string", "vector", "matrix"] : List String) →
      clientDecode env = .error (.unsupportedResultType env.resultType))
    ∧ ∀ resp, clientDecode env = Except.ok resp →
        resp.resultType = env.resultType ∧
        ((env.resultType = "scalar" ∧ ∃ xs, resp.result = some (.scalar xs)) ∨
         (env.resultType = "string" ∧ ∃ xs, resp.result = some (.strResult xs)) ∨
         (env.resultType = "vector" ∧ ∃ s, resp.result = some (.vector s)) ∨
         (env.resultType = "matrix" ∧ ∃ s, resp.result = some (.matrix s))) := by
  constructor
  · intro hrt
    unfold clientDecode
    rw [if_neg hs]
    split
    · rename_i h; exact absurd (by simp [h]) hrt
    · rename_i h; exact absurd (by simp [h]) hrt
    · rename_i h; exact absurd (by simp [h]) hrt
    · rename_i h; exact absurd (by simp [h]) hrt
    · rfl
  · intro resp hok
    unfold clientDecode at hok
    rw [if_neg hs] at hok
    split at hok
    · rename_i h
      split at hok
      · exact Except.noConfusion hok
      · cases hok; exact ⟨rfl, Or.inl ⟨h, _, rfl⟩⟩
    · rename_i h
      split at hok
      · exact Except.noConfusion hok
      · cases hok; exact ⟨rfl, Or.inr (Or.inl ⟨h, _, rfl⟩)⟩
    · rename_i h
      split at hok
      · exact Except.noConfusion hok
      · cases hok; exact ⟨rfl, Or.inr (Or.inr (Or.inl ⟨h, _, rfl⟩))⟩
    · rename_i h
      split at hok
      · exact Except.noConfusion hok
      · cases hok; exact ⟨rfl, Or.inr (Or.inr (Or.inr ⟨h, _, rfl⟩))⟩
    · exact Except.noConfusion hok

/-- Witness for C6: `resultType = "histogram"` is rejected with exactly the
unsupported-result-type error. -/
theorem clientDecode_unsupported_result_type_witness :
    clientDecode ⟨"success", "", "histogram", some (.arr [])⟩
      = .error (.unsupportedResultType "histogram") :=
  (clientDecode_unsupported_result_type ⟨"success", "", "histogram", some (.arr [])⟩
    (by decide)).1 (by decide)

/-- Counterexample to C1 as stated: a decoded vector response whose second
sample carries one extra label produces a second row with 4 cells under a
3-column header — each row derives its columns from its own label set, not
from a list computed once from the first sample. -/
theorem buildTable_row_width_counterexample :
    clientDecode heteroEnv = Except.ok heteroResp
    ∧ buildTable heteroResp = some heteroTable
    ∧ heteroTable.Header.length = 3
    ∧ heteroTable.Rows.map (fun r => r.Columns.length) = [3, 4]
    ∧ ¬(∀ r ∈ heteroTable.Rows, r.Columns.length = heteroTable.Header.length) :=
  ⟨rfl, rfl, rfl, rfl, by decide⟩

/-- Amended C1: provided every sample (series) of the response carries the
same label-name multiset as the first one — the uniform-key shape every
conforming backend emits — every row's cell count equals the header length,
and every row derives its label columns from the same sorted name list as
the header (the per-row sorted list coincides with the first sample's). -/
theorem buildTable_row_width_of_uniform_keys (qr : QueryResponse) (t : Table)
    (hbt : buildTable qr = some t) (huni : UniformKeys qr) :
    (∀ r ∈ t.Rows, r.Columns.length = t.Header.length)
    ∧ (∀ first rest, qr.result = some (.vector (first :: rest)) →
        ∀ ts ∈ rest, sortedLabelNames ts.Metric = sortedLabelNames first.Metric)
    ∧ (∀ first rest, qr.result = some (.matrix (first :: rest)) →
        ∀ ts ∈ rest, sortedLabelNames ts.Metric = sortedLabelNames first.Metric) := by
  have hsv : ∀ first rest, qr.result = some (.vector (first :: rest)) →
      ∀ ts ∈ rest, sortedLabelNames ts.Metric = sortedLabelNames first.Metric := by
    intro first rest hres ts hts
    unfold UniformKeys at huni
    rw [hres] at huni
    exact sortedLabelNames_eq_of_perm (huni ts hts)
  have hsm : ∀ first rest, qr.result = some (.matrix (first :: rest)) →
      ∀ ts ∈ rest, sortedLabelNames ts.Metric = sortedLabelNames first.Metric := by
    intro first rest hres ts hts
    unfold UniformKeys at huni
    rw [hres] at huni
    exact sortedLabelNames_eq_of_perm (huni ts hts)
  refine ⟨?_, hsv, hsm⟩
  cases hraw : qr.resultRaw with
  | none =>
      rw [buildTable_rawEmpty hraw] at hbt
      cases hbt
      intro r hr
      exact absurd hr (List.not_mem_nil r)
  | some rawv =>
      have hrawb : qr.resultRaw.isNone = false := by rw [hraw]; rfl
      cases hres : qr.result with
      | none =>
          rw [buildTable_result_none hrawb hres] at hbt
          cases hbt
          intro r hr
          exact absurd hr (List.not_mem_nil r)
      | some pl =>
          cases pl with
          | scalar xs =>
              rw [buildTable_scalar hrawb hres] at hbt
              rw [Option.bind_eq_some] at hbt
              obtain ⟨r0, hr0, ht⟩ := hbt
              cases ht
              intro r hr
              rw [List.mem_singleton] at hr
              subst hr
              obtain ⟨tt, vv, -, -, rfl⟩ := scalarRow_some hr0
              rfl
          | strResult xs =>
              rw [buildTable_strResult hrawb hres] at hbt
              rw [Option.bind_eq_some] at hbt
              obtain ⟨r0, hr0, ht⟩ := hbt
              cases ht
              intro r hr
              rw [List.mem_singleton] at hr
              subst hr
              obtain ⟨tt, vv, -, -, rfl⟩ := scalarRow_some hr0
              rfl
          | vector l =>
              cases l with
              | nil =>
                  rw [buildTable_vector_nil hres] at hbt
                  cases hbt
                  intro r hr
                  exact absurd hr (List.not_mem_nil r)
              | cons first rest =>
                  rw [buildTable_vector_cons hrawb hres] at hbt
                  rw [Option.bind_eq_some] at hbt
                  obtain ⟨rows, hrows, ht⟩ := hbt
                  cases ht
                  intro r hr
                  obtain ⟨ts, hts, hsr⟩ := forall₂_mem_right (mapM_option_eq_some hrows) hr
                  have hlen := sampleRow_length hsr
                  have hsame : (sortedLabelNames ts.Metric).length
                      = (sortedLabelNames first.Metric).length := by
                    rcases List.mem_cons.mp hts with rfl | hts2
                    · rfl
                    · rw [hsv first rest hres ts hts2]
                  rw [hlen, hsame]
                  simp only [List.length_cons, List.length_append, List.length_nil]
          | matrix l =>
              cases l with
              | nil =>
                  rw [buildTable_matrix_nil hres] at hbt
                  cases hbt
                  intro r hr
                  exact absurd hr (List.not_mem_nil r)
              | cons first rest =>
                  rw [buildTable_matrix_cons hrawb hres] at hbt
                  rw [Option.bind_eq_some] at hbt
                  obtain ⟨rowss, hrowss, ht⟩ := hbt
                  cases ht
                  intro r hr
                  rw [List.mem_flatten] at hr
                  obtain ⟨rs, hrs, hrmem⟩ := hr
                  obtain ⟨ts, hts, hmapm⟩ := forall₂_mem_right (mapM_option_eq_some hrowss) hrs
                  obtain ⟨p, hp, hpr⟩ := forall₂_mem_right (mapM_option_eq_some hmapm) hrmem
                  have hlen := pointRow_length hpr
                  have hsame : (sortedLabelNames ts.Metric).length
                      = (sortedLabelNames first.Metric).length := by
                    rcases List.mem_cons.mp hts with rfl | hts2
                    · rfl
                    · rw [hsm first rest hres ts hts2]
                  rw [hlen, hsame]
                  simp only [List.length_cons, List.length_append, List.length_nil]

/-- Witness for the amended C1 at the uniform-key two-sample vector fixture. -/
theorem buildTable_row_width_of_uniform_keys_witness :
    buildTable homoResp = some homoTable
    ∧ (∀ r ∈ homoTable.Rows, r.Columns.length = homoTable.Header.length) :=
  ⟨rfl, (buildTable_row_width_of_uniform_keys homoResp homoTable rfl
    (by intro ts hts; rw [List.mem_singleton] at hts; subst hts; decide)).1⟩

theorem mapM_option_isSome_of_forall {α β : Type} {f : α → Option β} {l : List α}
    (h : ∀ a ∈ l, ∃ b, f a = some b) : ∃ ys, l.mapM f = some ys := by
  induction l with
  | nil => exact ⟨[], rfl⟩
  | cons a l ih =>
      obtain ⟨b, hb⟩ := h a (List.mem_cons_self a l)
      obtain ⟨ys, hys⟩ := ih (fun x hx => h x (List.mem_cons_of_mem _ hx))
      refine ⟨b :: ys, ?_⟩
      rw [List.mapM_cons, hb, hys]
      rfl

theorem scalarRow_of_wf {xs : List Json} (h : WFPoint xs) :
    ∃ t v, scalarRow xs = some ⟨[formatTimestamp t, v]⟩ := by
  obtain ⟨t, v, rest, hp⟩ := h
  refine ⟨t, v, ?_⟩
  rw [hp]
  rfl

/-- On a well-formed point the Go row loop produces exactly `goRow`. -/
theorem pointRow_wf_eq {m : Labels} {p : List Json} (h : WFPoint p) :
    pointRow m p = some (goRow m p) := by
  obtain ⟨t, v, rest, rfl⟩ := h
  rfl

theorem mapM_pointRow_of_wf {m : Labels} {ps : List (List Json)}
    (h : ∀ p ∈ ps, WFPoint p) :
    ps.mapM (pointRow m) = some (ps.map (goRow m)) := by
  induction ps with
  | nil => rfl
  | cons p ps ih =>
      rw [List.mapM_cons, pointRow_wf_eq (h p (List.mem_cons_self p ps)),
        ih (fun q hq => h q (List.mem_cons_of_mem _ hq))]
      rfl

theorem mapM_series_of_wf {series : List MatrixTimeSeries}
    (h : ∀ ts ∈ series, ∀ p ∈ ts.Points, WFPoint p) :
    series.mapM (fun ts : MatrixTimeSeries => ts.Points.mapM (pointRow ts.Metric))
      = some (series.map (fun ts => ts.Points.map (goRow ts.Metric))) := by
  induction series with
  | nil => rfl
  | cons ts rest ih =>
      rw [List.mapM_cons, mapM_pointRow_of_wf (h ts (List.mem_cons_self ts rest)),
        ih (fun u hu => h u (List.mem_cons_of_mem _ hu))]
      rfl

/-- Counterexample to C3 as stated: the raw scalar payload `[]` passes the
decoder (an empty JSON array unmarshals into an empty `[]any`), and the
projector then indexes `result[0]` — a run-time panic, not a table. -/
theorem buildTable_panics_on_decoded_empty_scalar :
    clientDecode emptyScalarEnv = Except.ok emptyScalarResp
    ∧ buildTable emptyScalarResp = none :=
  ⟨rfl, rfl⟩

/-- Amended C3: for every decoded response whose scalar/string payload and
whose every sample/point is a `[number, string, ...]` tuple (which holds for
all conforming backend responses), the projector produces a table; an
absent raw payload yields the zero-row table, and a vector or matrix with
zero series yields zero header columns and zero rows — never an error. -/
theorem buildTable_total_of_wf (qr : QueryResponse) (hwf : WFPayload qr.result) :
    ∃ t, buildTable qr = some t
      ∧ (qr.resultRaw = none → t = ⟨[], []⟩)
      ∧ ((qr.result = some (.vector []) ∨ qr.result = some (.matrix [])) →
          t = ⟨[], []⟩) := by
  cases hraw : qr.resultRaw with
  | none => exact ⟨⟨[], []⟩, buildTable_rawEmpty hraw, fun _ => rfl, fun _ => rfl⟩
  | some rawv =>
      have hrawb : qr.resultRaw.isNone = false := by rw [hraw]; rfl
      cases hres : qr.result with
      | none =>
          refine ⟨⟨[], []⟩, buildTable_result_none hrawb hres, fun _ => rfl, fun _ => rfl⟩
      | some pl =>
          rw [hres] at hwf
          cases pl with
          | scalar xs =>
              obtain ⟨tt, vv, hsr⟩ := scalarRow_of_wf hwf
              refine ⟨⟨["timestamp", "value"], [⟨[formatTimestamp tt, vv]⟩]⟩, ?_, ?_, ?_⟩
              · rw [buildTable_scalar hrawb hres, hsr]
                rfl
              · intro h; simp at h
              · intro h; rcases h with h | h <;> simp at h
          | strResult xs =>
              obtain ⟨tt, vv, hsr⟩ := scalarRow_of_wf hwf
              refine ⟨⟨["timestamp", "value"], [⟨[formatTimestamp tt, vv]⟩]⟩, ?_, ?_, ?_⟩
              · rw [buildTable_strResult hrawb hres, hsr]
                rfl
              · intro h; simp at h
              · intro h; rcases h with h | h <;> simp at h
          | vector l =>
              cases l with
              | nil =>
                  exact ⟨⟨[], []⟩, buildTable_vector_nil hres,
                    fun h => by simp at h, fun _ => rfl⟩
              | cons first rest =>
                  have hall : ∀ ts ∈ (first :: rest), ∃ r, sampleRow ts = some r := by
                    intro ts hts
                    obtain ⟨t, v, h⟩ := sampleRow_of_wf (hwf ts hts)
                    exact ⟨_, h⟩
                  obtain ⟨rows, hrows⟩ := mapM_option_isSome_of_forall hall
                  refine ⟨⟨"timestamp" :: (sortedLabelNames first.Metric ++ ["value"]),
                    rows⟩, ?_, ?_, ?_⟩
                  · rw [buildTable_vector_cons hrawb hres, hrows]
                    rfl
                  · intro h; simp at h
                  · intro h; rcases h with h | h <;> simp at h
          | matrix l =>
              cases l with
              | nil =>
                  exact ⟨⟨[], []⟩, buildTable_matrix_nil hres,
                    fun h => by simp at h, fun _ => rfl⟩
              | cons first rest =>
                  refine ⟨⟨"timestamp" :: (sortedLabelNames first.Metric ++ ["value"]),
                    ((first :: rest).map (fun ts => ts.Points.map (goRow ts.Metric))).flatten⟩,
                    ?_, ?_, ?_⟩
                  · rw [buildTable_matrix_cons hrawb hres, mapM_series_of_wf hwf]
                    rfl
                  · intro h; simp at h
                  · intro h; rcases h with h | h <;> simp at h

/-- Witness for the amended C3 at the two-sample vector fixture. -/
theorem buildTable_total_of_wf_witness :
    ∃ t, buildTable homoResp = some t
      ∧ (homoResp.resultRaw = none → t = ⟨[], []⟩)
      ∧ ((homoResp.result = some (.vector []) ∨ homoResp.result = some (.matrix [])) →
          t = ⟨[], []⟩) :=
  buildTable_total_of_wf homoResp (by
    intro ts hts
    rcases List.mem_cons.mp hts with rfl | hts
    · exact ⟨1, "5", [], rfl⟩
    · rw [List.mem_singleton] at hts
      subst hts
      exact ⟨2, "6", [], rfl⟩)

/-- C4: a decoded matrix response with well-formed points projects to a table
whose row list is exactly the series-order concatenation of each series'
points in order — one row per point per series, each repeating that series'
label values with the point's own timestamp and value — and whose row count
is the sum of the per-series point counts. -/
theorem buildTable_matrix_flatten (qr : QueryResponse)
    (series : List MatrixTimeSeries) (hres : qr.result = some (.matrix series))
    (hraw : qr.resultRaw.isNone = false)
    (hwf : ∀ ts ∈ series, ∀ p ∈ ts.Points, WFPoint p) :
    ∃ t, buildTable qr = some t
      ∧ t.Rows = (series.map (fun ts => ts.Points.map (goRow ts.Metric))).flatten
      ∧ t.Rows.length = (series.map (fun ts => ts.Points.length)).sum := by
  cases series with
  | nil =>
      refine ⟨⟨[], []⟩, buildTable_matrix_nil hres, rfl, rfl⟩
  | cons first rest =>
      refine ⟨⟨"timestamp" :: (sortedLabelNames first.Metric ++ ["value"]),
        ((first :: rest).map (fun ts => ts.Points.map (goRow ts.Metric))).flatten⟩,
        ?_, rfl, ?_⟩
      · rw [buildTable_matrix_cons hraw hres, mapM_series_of_wf hwf]
        rfl
      · simp [List.length_flatten, List.map_map, Function.comp_def]

/-- Witness for C4 at the two-series matrix fixture (2 + 1 points). -/
theorem buildTable_matrix_flatten_witness :
    ∃ t, buildTable matrixResp = some t
      ∧ t.Rows = (([⟨[("job", "api")], [[.num 1, .str "10"], [.num 2, .str "11"]]⟩,
          ⟨[("job", "db")], [[.num 3, .str "12"]]⟩] : List MatrixTimeSeries).map
            (fun ts => ts.Points.map (goRow ts.Metric))).flatten
      ∧ t.Rows.length = (([⟨[("job", "api")], [[.num 1, .str "10"], [.num 2, .str "11"]]⟩,
          ⟨[("job", "db")], [[.num 3, .str "12"]]⟩] : List MatrixTimeSeries).map
            (fun ts => ts.Points.length)).sum :=
  buildTable_matrix_flatten matrixResp _ rfl rfl (by
    intro ts hts
    rcases List.mem_cons.mp hts with rfl | hts
    · intro p hp
      rcases List.mem_cons.mp hp with rfl | hp
      · exact ⟨1, "10", [], rfl⟩
      · rw [List.mem_singleton] at hp
        subst hp
        exact ⟨2, "11", [], rfl⟩
    · rw [List.mem_singleton] at hts
      subst hts
      intro p hp
      rw [List.mem_singleton] at hp
      subst hp
      exact ⟨3, "12", [], rfl⟩)

/-! ## Digit-string lemmas -/

theorem charVal_digitChar {r : ℕ} (h : r < 10) : charVal (digitChar r) = r := by
  interval_cases r <;> rfl

theorem isDigitCh_digitChar {r : ℕ} (h : r < 10) : isDigitCh (digitChar r) = true := by
  interval_cases r <;> rfl

theorem toPad_length (k n : ℕ) : (toPad k n).length = k := by
  induction k generalizing n with
  | zero => rfl
  | succ k ih => simp [toPad, ih]

theorem toPad_all_digits (k n : ℕ) : (toPad k n).all isDigitCh = true := by
  induction k generalizing n with
  | zero => rfl
  | succ k ih =>
      simp only [toPad, List.all_append, ih, Bool.true_and, List.all_cons, List.all_nil,
        Bool.and_true]
      exact isDigitCh_digitChar (Nat.mod_lt n (by norm_num))

theorem fromDigits_append_digit (l : List Char) (c : Char) :
    fromDigits (l ++ [c]) = fromDigits l * 10 + charVal c := by
  simp [fromDigits, List.foldl_append]

theorem fromDigits_toPad {k n : ℕ} (h : n < 10 ^ k) : fromDigits (toPad k n) = n := by
  induction k generalizing n with
  | zero =>
      rw [pow_zero, Nat.lt_one_iff] at h
      subst h
      rfl
  | succ k ih =>
      have hd : n / 10 < 10 ^ k := by
        rw [pow_succ, mul_comm] at h
        exact Nat.div_lt_of_lt_mul h
      rw [toPad, fromDigits_append_digit, ih hd,
        charVal_digitChar (Nat.mod_lt n (by norm_num))]
      have := Nat.div_add_mod n 10
      omega

theorem parseFixed_toPad {k n : ℕ} (h : n < 10 ^ k) (rest : List Char) :
    parseFixed k (toPad k n ++ rest) = some (n, rest) := by
  unfold parseFixed
  rw [List.take_left' (toPad_length k n), List.drop_left' (toPad_length k n),
    if_pos ⟨toPad_length k n, toPad_all_digits k n⟩, fromDigits_toPad h]

theorem expectCh_cons (c : Char) (r : List Char) : expectCh c (c :: r) = some r := by
  simp [expectCh]

/-! ## Fraction trimming lemmas -/

theorem trimZeros_spec (cs : List Char) :
    cs = trimZeros cs ++ List.replicate (cs.length - (trimZeros cs).length) '0' := by
  have h1 : cs.reverse.takeWhile (fun c => decide (c = '0'))
      ++ cs.reverse.dropWhile (fun c => decide (c = '0')) = cs.reverse :=
    List.takeWhile_append_dropWhile _ _
  have h2 : cs.reverse.takeWhile (fun c => decide (c = '0'))
      = List.replicate (cs.reverse.takeWhile (fun c => decide (c = '0'))).length '0' := by
    apply List.eq_replicate_of_mem
    intro b hb
    have hmem := List.mem_takeWhile_imp hb
    simpa using hmem
  have h3 : cs = trimZeros cs
      ++ (cs.reverse.takeWhile (fun c => decide (c = '0'))).reverse := by
    conv_lhs => rw [← List.reverse_reverse cs, ← h1]
    rw [List.reverse_append]
    rfl
  have h4 : (cs.reverse.takeWhile (fun c => decide (c = '0'))).reverse
      = List.replicate (cs.reverse.takeWhile (fun c => decide (c = '0'))).length '0' := by
    conv_lhs => rw [h2]
    rw [List.reverse_replicate]
  have h5 : cs.length - (trimZeros cs).length
      = (cs.reverse.takeWhile (fun c => decide (c = '0'))).length := by
    have := congrArg List.length h3
    simp only [List.length_append, List.length_reverse] at this
    omega
  rw [h5]
  conv_lhs => rw [h3, h4]

theorem fromDigits_append_zeros (l : List Char) (z : ℕ) :
    fromDigits (l ++ List.replicate z '0') = fromDigits l * 10 ^ z := by
  induction z with
  | zero => simp
  | succ z ih =>
      rw [List.replicate_succ' z, ← List.append_assoc, fromDigits_append_digit, ih]
      have hc : charVal '0' = 0 := rfl
      rw [hc, pow_succ]
      ring

theorem all_of_prefix {l r : List Char} {p : Char → Bool}
    (h : (l ++ r).all p = true) : l.all p = true := by
  rw [List.all_append, Bool.and_eq_true] at h
  exact h.1

theorem takeWhile_digits_append {l : List Char} (hl : l.all isDigitCh = true) :
    (l ++ ['Z']).takeWhile isDigitCh = l := by
  induction l with
  | nil => rfl
  | cons c cs ih =>
      rw [List.all_cons, Bool.and_eq_true] at hl
      rw [List.cons_append, List.takeWhile_cons_of_pos hl.1, ih hl.2]

theorem parseFrac_eq {l : List Char} (hl : l.all isDigitCh = true)
    (h0 : l ≠ []) (h9 : l.length ≤ 9) :
    parseFrac (l ++ ['Z']) = some (fromDigits l * 10 ^ (9 - l.length)) := by
  unfold parseFrac
  rw [takeWhile_digits_append hl, List.drop_left' rfl]
  have hcond : ¬(l.length = 0 ∨ 9 < l.length) := by
    rintro (hc | hc)
    · exact h0 (List.length_eq_zero.mp hc)
    · omega
  rw [if_neg hcond]
  rfl

/-! ## Calendar lemmas -/

theorem spanDays_le (y fuel : ℕ) : fuel ≤ spanDays y fuel := by
  induction fuel generalizing y with
  | zero => exact le_refl 0
  | succ k ih =>
      have h365 : 1 ≤ daysInYear y := by
        unfold daysInYear
        split <;> norm_num
      have h2 := ih (y + 1)
      rw [spanDays]
      omega

theorem findYear_succ (fuel y n : ℕ) : findYear (fuel + 1) y n
    = if n < daysInYear y then (y, n) else findYear fuel (y + 1) (n - daysInYear y) := rfl

theorem findYear_eq (fuel : ℕ) : ∀ (y n : ℕ), n < spanDays y fuel →
    ∃ k, (findYear fuel y n).1 = y + k
      ∧ spanDays y k + (findYear fuel y n).2 = n
      ∧ (findYear fuel y n).2 < daysInYear (y + k) := by
  induction fuel with
  | zero =>
      intro y n h
      rw [spanDays] at h
      exact absurd h (Nat.not_lt_zero n)
  | succ fuel ih =>
      intro y n h
      by_cases hn : n < daysInYear y
      · refine ⟨0, ?_, ?_, ?_⟩ <;> rw [findYear_succ, if_pos hn]
        · rfl
        · rw [spanDays]; omega
        · simpa using hn
      · rw [spanDays] at h
        have h2 : n - daysInYear y < spanDays (y + 1) fuel := by omega
        obtain ⟨k, hk1, hk2, hk3⟩ := ih (y + 1) (n - daysInYear y) h2
        refine ⟨k + 1, ?_, ?_, ?_⟩ <;> rw [findYear_succ, if_neg hn]
        · rw [hk1]; omega
        · rw [spanDays]; omega
        · have he : y + (k + 1) = (y + 1) + k := by omega
          rw [he]; exact hk3

theorem findMonth_cons (len : ℕ) (rest : List ℕ) (m n : ℕ) :
    findMonth (len :: rest) m n
      = if n < len then (m, n) else findMonth rest (m + 1) (n - len) := rfl

theorem findMonth_eq : ∀ (ls : List ℕ) (m n : ℕ), n < ls.sum →
    ∃ k, k < ls.length
      ∧ (findMonth ls m n).1 = m + k
      ∧ (ls.take k).sum + (findMonth ls m n).2 = n
      ∧ (findMonth ls m n).2 < ls.getD k 0 := by
  intro ls
  induction ls with
  | nil =>
      intro m n h
      simp at h
  | cons len rest ih =>
      intro m n h
      by_cases hn : n < len
      · refine ⟨0, by simp, ?_, ?_, ?_⟩ <;> rw [findMonth_cons, if_pos hn]
        · rfl
        · simp
        · simpa using hn
      · rw [List.sum_cons] at h
        have h2 : n - len < rest.sum := by omega
        obtain ⟨k, hk0, hk1, hk2, hk3⟩ := ih (m + 1) (n - len) h2
        refine ⟨k + 1, by simpa using hk0, ?_, ?_, ?_⟩ <;> rw [findMonth_cons, if_neg hn]
        · rw [hk1]; omega
        · rw [List.take_succ_cons, List.sum_cons]; omega
        · simpa using hk3

theorem monthLengths_sum (leap : Bool) :
    (monthLengths leap).sum = if leap then 366 else 365 := by
  cases leap <;> rfl

theorem monthLengths_le31 (leap : Bool) : ∀ x ∈ monthLengths leap, x ≤ 31 := by
  cases leap <;> decide

theorem monthLengths_length (leap : Bool) : (monthLengths leap).length = 12 := by
  cases leap <;> rfl

/-- The calendar walk `civilFromDays` always lands on a valid date whose
inverse `daysFromCivil` recovers the day count. -/
theorem civilFromDays_spec (n : ℕ) :
    1970 ≤ (civilFromDays n).1
    ∧ 1 ≤ (civilFromDays n).2.1 ∧ (civilFromDays n).2.1 ≤ 12
    ∧ 1 ≤ (civilFromDays n).2.2 ∧ (civilFromDays n).2.2 ≤ 31
    ∧ daysFromCivil (civilFromDays n).1 (civilFromDays n).2.1 (civilFromDays n).2.2 = n := by
  have hn : n < spanDays 1970 (n + 1) :=
    lt_of_lt_of_le (Nat.lt_succ_self n) (spanDays_le 1970 (n + 1))
  obtain ⟨k, hk1, hk2, hk3⟩ := findYear_eq (n + 1) 1970 n hn
  rw [← hk1] at hk3
  have hdoy : (findYear (n + 1) 1970 n).2
      < (monthLengths (isLeapYear (findYear (n + 1) 1970 n).1)).sum := by
    rw [monthLengths_sum]
    unfold daysInYear at hk3
    exact hk3
  obtain ⟨k2, hm0, hm1, hm2, hm3⟩ := findMonth_eq _ 1 _ hdoy
  have hciv : civilFromDays n
      = ((findYear (n + 1) 1970 n).1,
         (findMonth (monthLengths (isLeapYear (findYear (n + 1) 1970 n).1)) 1
           (findYear (n + 1) 1970 n).2).1,
         (findMonth (monthLengths (isLeapYear (findYear (n + 1) 1970 n).1)) 1
           (findYear (n + 1) 1970 n).2).2 + 1) := rfl
  rw [hciv]
  dsimp only
  have hml12 : (monthLengths (isLeapYear (findYear (n + 1) 1970 n).1)).length = 12 :=
    monthLengths_length _
  have hget31 : (monthLengths (isLeapYear (findYear (n + 1) 1970 n).1)).getD k2 0 ≤ 31 := by
    have hmem : (monthLengths (isLeapYear (findYear (n + 1) 1970 n).1)).getD k2 0
        ∈ monthLengths (isLeapYear (findYear (n + 1) 1970 n).1) := by
      rw [List.getD_eq_getElem _ _ (by omega)]
      exact List.getElem_mem _
    exact monthLengths_le31 _ _ hmem
  refine ⟨by omega, by omega, by omega, by omega, by omega, ?_⟩
  unfold daysFromCivil
  have e0 : (findYear (n + 1) 1970 n).1 - 1970 = k := by omega
  have e1 : (findMonth (monthLengths (isLeapYear (findYear (n + 1) 1970 n).1)) 1
      (findYear (n + 1) 1970 n).2).1 - 1 = k2 := by omega
  have e2 : (findMonth (monthLengths (isLeapYear (findYear (n + 1) 1970 n).1)) 1
      (findYear (n + 1) 1970 n).2).2 + 1 - 1
      = (findMonth (monthLengths (isLeapYear (findYear (n + 1) 1970 n).1)) 1
        (findYear (n + 1) 1970 n).2).2 := by omega
  rw [e0, e1, e2]
  omega

theorem trimZeros_exists (cs : List Char) :
    ∃ z, cs = trimZeros cs ++ List.replicate z '0' :=
  ⟨_, trimZeros_spec cs⟩

set_option maxHeartbeats 1600000 in
/-- Parsing the rendered instant recovers days, seconds of day and
microseconds. -/
theorem parse_rfc3339Core (days sod micro : ℕ)
    (hy : (civilFromDays days).1 < 10000)
    (hsod : sod < 86400) (hmicro : micro < 1000000) :
    parseChars (rfc3339Core days sod micro)
      = some (((days * 86400 + sod) * 1000000 + micro : ℕ) : ℤ) := by
  obtain ⟨hy1970, hmo1, hmo12, hd1, hd31, hinv⟩ := civilFromDays_spec days
  have hp4 : (10 : ℕ) ^ 4 = 10000 := by norm_num
  have hp2 : (10 : ℕ) ^ 2 = 100 := by norm_num
  have hylt : (civilFromDays days).1 < 10 ^ 4 := by omega
  have hmo : (civilFromDays days).2.1 < 10 ^ 2 := by omega
  have hdd : (civilFromDays days).2.2 < 10 ^ 2 := by omega
  have hhdiv : sod / 3600 < 24 := Nat.div_lt_of_lt_mul (by omega)
  have hh2 : sod / 3600 < 10 ^ 2 := by omega
  have hmidiv : sod % 3600 / 60 < 60 :=
    Nat.div_lt_of_lt_mul (Nat.mod_lt sod (by norm_num))
  have hmi2 : sod % 3600 / 60 < 10 ^ 2 := by omega
  have hsmod : sod % 60 < 60 := Nat.mod_lt sod (by norm_num)
  have hs2 : sod % 60 < 10 ^ 2 := by omega
  have t1 := Nat.div_add_mod sod 3600
  have t2 := Nat.div_add_mod (sod % 3600) 60
  have t3 : sod % 3600 % 60 = sod % 60 := Nat.mod_mod_of_dvd sod (by norm_num)
  by_cases hmz : micro = 0
  · subst hmz
    have hfs : fracString 0 = [] := rfl
    unfold rfc3339Core parseChars
    rw [hfs]
    simp only [List.nil_append, Option.bind_eq_bind]
    rw [parseFixed_toPad hylt]
    simp only [Option.some_bind]
    rw [expectCh_cons]
    simp only [Option.some_bind]
    rw [parseFixed_toPad hmo]
    simp only [Option.some_bind]
    rw [expectCh_cons]
    simp only [Option.some_bind]
    rw [parseFixed_toPad hdd]
    simp only [Option.some_bind]
    rw [expectCh_cons]
    simp only [Option.some_bind]
    rw [parseFixed_toPad hh2]
    simp only [Option.some_bind]
    rw [expectCh_cons]
    simp only [Option.some_bind]
    rw [parseFixed_toPad hmi2]
    simp only [Option.some_bind]
    rw [expectCh_cons]
    simp only [Option.some_bind]
    rw [parseFixed_toPad hs2]
    simp only [Option.some_bind]
    rw [hinv]
    simp only [Option.some.injEq, Nat.cast_inj]
    omega
  · have hlt9 : micro * 1000 < 10 ^ 9 := by norm_num; omega
    have h9len : (toPad 9 (micro * 1000)).length = 9 := toPad_length 9 _
    have halldig : (toPad 9 (micro * 1000)).all isDigitCh = true := toPad_all_digits 9 _
    have hval : fromDigits (toPad 9 (micro * 1000)) = micro * 1000 := fromDigits_toPad hlt9
    obtain ⟨z, hz⟩ := trimZeros_exists (toPad 9 (micro * 1000))
    have hfs : fracString micro = '.' :: trimZeros (toPad 9 (micro * 1000)) := by
      unfold fracString
      rw [if_neg hmz]
    unfold rfc3339Core parseChars
    rw [hfs]
    generalize hT : trimZeros (toPad 9 (micro * 1000)) = T at hz
    have hTlen : T.length + z = 9 := by
      have hcl := congrArg List.length hz
      simp only [List.length_append, List.length_replicate] at hcl
      omega
    have hTall : T.all isDigitCh = true := by
      apply all_of_prefix (r := List.replicate z '0')
      rw [← hz]
      exact halldig
    have hTne : T ≠ [] := by
      intro hTnil
      subst hTnil
      have h0 : fromDigits (toPad 9 (micro * 1000)) = 0 := by
        rw [hz]
        simpa [fromDigits] using fromDigits_append_zeros [] z
      rw [hval] at h0
      omega
    have hTval : fromDigits T * 10 ^ (9 - T.length) = micro * 1000 := by
      have h2 : fromDigits (T ++ List.replicate z '0') = fromDigits T * 10 ^ z :=
        fromDigits_append_zeros T z
      rw [← hz, hval] at h2
      have hzz : 9 - T.length = z := by omega
      rw [hzz, h2]
    have hfracp : parseFrac (T ++ ['Z'])
        = some (fromDigits T * 10 ^ (9 - T.length)) :=
      parseFrac_eq hTall hTne (by omega)
    simp only [List.cons_append, Option.bind_eq_bind]
    rw [parseFixed_toPad hylt]
    simp only [Option.some_bind]
    rw [expectCh_cons]
    simp only [Option.some_bind]
    rw [parseFixed_toPad hmo]
    simp only [Option.some_bind]
    rw [expectCh_cons]
    simp only [Option.some_bind]
    rw [parseFixed_toPad hdd]
    simp only [Option.some_bind]
    rw [expectCh_cons]
    simp only [Option.some_bind]
    rw [parseFixed_toPad hh2]
    simp only [Option.some_bind]
    rw [expectCh_cons]
    simp only [Option.some_bind]
    rw [parseFixed_toPad hmi2]
    simp only [Option.some_bind]
    rw [expectCh_cons]
    simp only [Option.some_bind]
    rw [parseFixed_toPad hs2]
    simp only [Option.some_bind]
    rw [hfracp]
    simp only [Option.some_bind]
    rw [hTval, hinv]
    simp only [Option.some.injEq, Nat.cast_inj]
    have hdivk : micro * 1000 / 1000 = micro := by omega
    rw [hdivk]
    omega

/-- Round trip: parsing the formatted timestamp of a non-negative
microsecond instant in the four-digit-year range recovers the instant. -/
theorem parseRFC3339_rfc3339NanoUTC {us : ℤ} (h0 : 0 ≤ us) (hy : yearOf us < 10000) :
    parseRFC3339 (rfc3339NanoUTC us) = some us := by
  have hy2 : (civilFromDays (us.toNat / 1000000 / 86400)).1 < 10000 := hy
  have hp : parseRFC3339 (rfc3339NanoUTC us)
      = parseChars (rfc3339Core (us.toNat / 1000000 / 86400)
          (us.toNat / 1000000 % 86400) (us.toNat % 1000000)) := rfl
  rw [hp, parse_rfc3339Core _ _ _ hy2 (Nat.mod_lt _ (by norm_num))
    (Nat.mod_lt _ (by norm_num))]
  congr 1
  have h3 : (us.toNat / 1000000 / 86400 * 86400 + us.toNat / 1000000 % 86400) * 1000000
      + us.toNat % 1000000 = us.toNat := by
    have h1 := Nat.div_add_mod (us.toNat / 1000000) 86400
    have h2 := Nat.div_add_mod us.toNat 1000000
    omega
  rw [h3]
  exact Int.toNat_of_nonneg h0

/-- For non-negative rationals the Go conversion is the floor of the scaled
value. -/
theorem goMicro_eq_floor {q : ℚ} (hq : 0 ≤ q) :
    goMicroOfSeconds q = ⌊q * 1000000⌋ := by
  have hnum : 0 ≤ q.num := Rat.num_nonneg.mpr hq
  have hqe : q * 1000000 = ((q.num * 1000000 : ℤ) : ℚ) / ((q.den : ℕ) : ℚ) := by
    conv_lhs => rw [← Rat.num_div_den q]
    push_cast
    ring
  rw [hqe, Rat.floor_intCast_div_natCast]
  unfold goMicroOfSeconds
  exact Int.tdiv_eq_ediv (by positivity) (by positivity)

theorem goMicro_bracket_nonneg {q : ℚ} (hq : 0 ≤ q) :
    (goMicroOfSeconds q : ℚ) ≤ q * 1000000
    ∧ q * 1000000 < (goMicroOfSeconds q : ℚ) + 1 := by
  rw [goMicro_eq_floor hq]
  exact ⟨Int.floor_le _, Int.lt_floor_add_one _⟩

theorem goMicro_neg (q : ℚ) : goMicroOfSeconds (-q) = -goMicroOfSeconds q := by
  unfold goMicroOfSeconds
  rw [Rat.neg_num, Rat.neg_den, Int.neg_mul, Int.neg_tdiv]

/-- The Go conversion of `(us + δ)/10^6` for a sub-microsecond fraction `δ`
is exactly `us`: the fraction is truncated, never rounded. -/
theorem goMicro_truncates_sub_micro {us : ℤ} (h0 : 0 ≤ us) {δ : ℚ}
    (hδ0 : 0 ≤ δ) (hδ1 : δ < 1) :
    goMicroOfSeconds ((us + δ) / 1000000) = us := by
  have hqnn : (0 : ℚ) ≤ (us + δ) / 1000000 := by
    have : (0 : ℚ) ≤ (us : ℚ) := by exact_mod_cast h0
    positivity
  obtain ⟨hb1, hb2⟩ := goMicro_bracket_nonneg hqnn
  have hmul : (us + δ) / 1000000 * 1000000 = (us : ℚ) + δ := by
    field_simp
  rw [hmul] at hb1 hb2
  have hc1 : (goMicroOfSeconds ((us + δ) / 1000000) : ℚ) < (us : ℚ) + 1 := by
    calc (goMicroOfSeconds ((us + δ) / 1000000) : ℚ) ≤ (us : ℚ) + δ := hb1
      _ < (us : ℚ) + 1 := by linarith
  have hc2 : (us : ℚ) < (goMicroOfSeconds ((us + δ) / 1000000) : ℚ) + 1 := by
    calc (us : ℚ) ≤ (us : ℚ) + δ := by linarith
      _ < (goMicroOfSeconds ((us + δ) / 1000000) : ℚ) + 1 := hb2
  have hi1 : goMicroOfSeconds ((us + δ) / 1000000) < us + 1 := by exact_mod_cast hc1
  have hi2 : us < goMicroOfSeconds ((us + δ) / 1000000) + 1 := by exact_mod_cast hc2
  omega

/-- C8: `formatTimestamp` converts the fractional Unix-seconds value to a
microsecond-resolution integer instant by truncation toward zero — the
scaled value is bracketed from the integer side, and adding any
sub-microsecond fraction to an instant leaves the formatted output
unchanged (truncated, not rounded) — and formats that integer instant as an
RFC3339 nanosecond-precision timestamp. -/
theorem formatTimestamp_truncation (q : ℚ) :
    formatTimestamp q = rfc3339NanoUTC (goMicroOfSeconds q)
    ∧ (0 ≤ q → (goMicroOfSeconds q : ℚ) ≤ q * 1000000
        ∧ q * 1000000 < (goMicroOfSeconds q : ℚ) + 1)
    ∧ (q < 0 → (goMicroOfSeconds q : ℚ) - 1 < q * 1000000
        ∧ q * 1000000 ≤ (goMicroOfSeconds q : ℚ))
    ∧ (∀ us : ℤ, 0 ≤ us → ∀ δ : ℚ, 0 ≤ δ → δ < 1 →
        formatTimestamp ((us + δ) / 1000000) = formatTimestamp ((us : ℚ) / 1000000)) := by
  refine ⟨rfl, fun hq => goMicro_bracket_nonneg hq, fun hq => ?_, fun us h0 δ hδ0 hδ1 => ?_⟩
  · have hq2 : (0 : ℚ) ≤ -q := by linarith
    obtain ⟨hb1, hb2⟩ := goMicro_bracket_nonneg hq2
    rw [goMicro_neg q] at hb1 hb2
    push_cast at hb1 hb2
    constructor
    · nlinarith
    · nlinarith
  · have he1 : goMicroOfSeconds ((us + δ) / 1000000) = us :=
      goMicro_truncates_sub_micro h0 hδ0 hδ1
    have he2 : goMicroOfSeconds ((us : ℚ) / 1000000) = us := by
      have := goMicro_truncates_sub_micro h0 (le_refl (0 : ℚ)) (by norm_num)
      simpa using this
    show rfc3339NanoUTC (goMicroOfSeconds ((us + δ) / 1000000))
      = rfc3339NanoUTC (goMicroOfSeconds ((us : ℚ) / 1000000))
    rw [he1, he2]

/-- Witness for C8 at `q = 3/2` seconds and at the instant 1500000 µs with
the fraction 1/2 µs. -/
theorem formatTimestamp_truncation_witness :
    ((goMicroOfSeconds (mkRat 3 2) : ℚ) ≤ mkRat 3 2 * 1000000
      ∧ mkRat 3 2 * 1000000 < (goMicroOfSeconds (mkRat 3 2) : ℚ) + 1)
    ∧ formatTimestamp ((((1500000 : ℤ) : ℚ) + mkRat 1 2) / 1000000)
      = formatTimestamp (((1500000 : ℤ) : ℚ) / 1000000) :=
  ⟨(formatTimestamp_truncation (mkRat 3 2)).2.1 (by norm_num),
   (formatTimestamp_truncation (mkRat 3 2)).2.2.2 1500000 (by norm_num)
     (mkRat 1 2) (by norm_num) (by norm_num)⟩

/-- C7: a decoded scalar or string response with a well-formed payload
projects to exactly the header `[timestamp, value]` and the single row
`[formatTimestamp ts, value]` — one row, two columns — and for a
non-negative timestamp within the four-digit-year range the timestamp cell
parses back to exactly the microsecond-truncated instant of the input. -/
theorem buildTable_scalar_roundtrip (qr : QueryResponse) (xs : List Json)
    (t : ℚ) (v : String) (rest : List Json)
    (hres : qr.result = some (.scalar xs) ∨ qr.result = some (.strResult xs))
    (hxs : xs = .num t :: .str v :: rest)
    (hraw : qr.resultRaw.isNone = false)
    (h0 : 0 ≤ goMicroOfSeconds t)
    (hy : yearOf (goMicroOfSeconds t) < 10000) :
    buildTable qr = some ⟨["timestamp", "value"], [⟨[formatTimestamp t, v]⟩]⟩
    ∧ parseRFC3339 (formatTimestamp t) = some (goMicroOfSeconds t) := by
  constructor
  · have hsr : scalarRow xs = some ⟨[formatTimestamp t, v]⟩ := by
      rw [hxs]
      rfl
    rcases hres with hres | hres
    · rw [buildTable_scalar hraw hres, hsr]
      rfl
    · rw [buildTable_strResult hraw hres, hsr]
      rfl
  · exact parseRFC3339_rfc3339NanoUTC h0 hy

/-- Witness for C7 at the scalar fixture with timestamp `1700000000.5`. -/
theorem buildTable_scalar_roundtrip_witness :
    buildTable scalarResp
      = some ⟨["timestamp", "value"],
          [⟨[formatTimestamp (mkRat 3400000001 2), "3.14"]⟩]⟩
    ∧ parseRFC3339 (formatTimestamp (mkRat 3400000001 2))
      = some (goMicroOfSeconds (mkRat 3400000001 2)) :=
  buildTable_scalar_roundtrip scalarResp _ (mkRat 3400000001 2) "3.14" []
    (Or.inl rfl) rfl rfl (by decide) (by decide)

end PromQL
